import Mathlib

/-!
# Verification of the zero-epwing-go extraction pipeline

Shallow embedding of `zig.go` (both versions present in the repository) and of
`zero-epwing/main.go`'s view of the library API.  Machine integers are modelled
as `Nat` with explicit reduction modulo `2^32` where it matters; byte strings
are `List Nat` with each element a byte value; fallible calls return `Except`
or are driven by explicit oracles describing which access-layer calls succeed.
-/

namespace Zig

/-! ## CRC32 (Go `hash/crc32`, IEEE polynomial)

`crc32.NewIEEE()` followed by `Write`s computes the reflected CRC-32 with
polynomial `0xEDB88320`, initial value `0xFFFFFFFF` and final xor
`0xFFFFFFFF`, over the concatenation of the written byte slices. -/

/-- One bit step of the reflected CRC-32 update. -/
def crc32Bit (c : Nat) : Nat :=
  if c % 2 = 1 then Nat.xor (c / 2) 0xEDB88320 else c / 2

/-- One byte step: xor the byte into the low bits, then eight bit steps. -/
def crc32Byte (c b : Nat) : Nat :=
  (crc32Bit (crc32Bit (crc32Bit (crc32Bit
    (crc32Bit (crc32Bit (crc32Bit (crc32Bit (Nat.xor c (b % 256))))))))))

/-- CRC-32 (IEEE) of a byte sequence, as computed by `hash/crc32`. -/
def crc32 (data : List Nat) : Nat :=
  Nat.xor (data.foldl crc32Byte 0xFFFFFFFF) 0xFFFFFFFF

/-! ## Entries and deduplication (`loadEntries`)

An `Entry` holds the decoded heading and text of one hit.  The Go code hashes
the UTF-8 bytes of the two decoded strings; we keep the byte lists. -/

/-- `Entry` / `BookEntry` from `zig.go`: decoded heading and text, as bytes. -/
structure Entry where
  heading : List Nat
  text : List Nat
  deriving DecidableEq, Repr

/-- The checksum `loadEntries` computes for an entry:
`hasher.Write(heading); hasher.Write(text); hasher.Sum32()`, i.e. the CRC-32
of heading followed by text. -/
def entryKey (e : Entry) : Nat :=
  crc32 (e.heading ++ e.text)

/-- The dedup loop body of `loadEntries`, over the stream of decoded hits:
an entry is appended exactly when its checksum is not in `blocksSeen`, and
its checksum is then recorded.  `seen` models the `map[uint32]bool`
`query.blocksSeen` as the list of keys mapped to `true`. -/
def loadEntriesAux : List Entry → List Nat → List Entry × List Nat
  | [], seen => ([], seen)
  | e :: rest, seen =>
    if entryKey e ∈ seen then
      loadEntriesAux rest seen
    else
      let (es, s) := loadEntriesAux rest (entryKey e :: seen)
      (e :: es, s)

/-- One enumeration pass (`loadEntries`): the hits it decodes, filtered
against (and updating) the subbook's shared `blocksSeen` set. -/
def loadEntries (hits : List Entry) (seen : List Nat) : List Entry × List Nat :=
  loadEntriesAux hits seen

/-- The entry sequence a subbook accumulates over the three enumeration
passes of `loadSubbook` (alphabet, kana, as-is): each pass feeds the same
`queryContext`, and the per-pass results are appended in order. -/
def subbookEntries (alphabet kana asis : List Entry) : List Entry :=
  let (e1, s1) := loadEntries alphabet []
  let (e2, s2) := loadEntries kana s1
  let (e3, _) := loadEntries asis s2
  e1 ++ e2 ++ e3

/-! Helper lemmas about the dedup loop. -/

theorem loadEntriesAux_seen_mono (hits : List Entry) (seen : List Nat) :
    ∀ k ∈ seen, k ∈ (loadEntriesAux hits seen).2 := by
  induction hits generalizing seen with
  | nil => simp [loadEntriesAux]
  | cons e rest ih =>
    intro k hk
    by_cases h : entryKey e ∈ seen
    · simpa [loadEntriesAux, h] using ih seen k hk
    · simpa [loadEntriesAux, h] using ih (entryKey e :: seen) k (by simp [hk])

theorem loadEntriesAux_out_key_seen (hits : List Entry) (seen : List Nat) :
    ∀ e ∈ (loadEntriesAux hits seen).1, entryKey e ∈ (loadEntriesAux hits seen).2 := by
  induction hits generalizing seen with
  | nil => simp [loadEntriesAux]
  | cons a rest ih =>
    intro e he
    by_cases h : entryKey a ∈ seen
    · simp only [loadEntriesAux, if_pos h] at he ⊢
      exact ih seen e he
    · simp only [loadEntriesAux, if_neg h, List.mem_cons] at he ⊢
      rcases he with he | he
      · subst he
        exact loadEntriesAux_seen_mono rest (entryKey e :: seen) _ (by simp)
      · exact ih (entryKey a :: seen) e he

theorem loadEntriesAux_fresh (hits : List Entry) (seen : List Nat) :
    ∀ e ∈ (loadEntriesAux hits seen).1, entryKey e ∉ seen := by
  induction hits generalizing seen with
  | nil => simp [loadEntriesAux]
  | cons a rest ih =>
    intro e he
    by_cases h : entryKey a ∈ seen
    · simp only [loadEntriesAux, if_pos h] at he
      exact ih seen e he
    · simp only [loadEntriesAux, if_neg h, List.mem_cons] at he
      rcases he with he | he
      · subst he; exact h
      · intro hk
        exact ih (entryKey a :: seen) e he (by simp [hk])

theorem loadEntriesAux_pairwise (hits : List Entry) (seen : List Nat) :
    (loadEntriesAux hits seen).1.Pairwise (fun a b => entryKey a ≠ entryKey b) := by
  induction hits generalizing seen with
  | nil => simp [loadEntriesAux]
  | cons a rest ih =>
    by_cases h : entryKey a ∈ seen
    · simpa [loadEntriesAux, h] using ih seen
    · simp only [loadEntriesAux, if_neg h]
      refine List.Pairwise.cons ?_ (ih (entryKey a :: seen))
      intro b hb hkey
      have := loadEntriesAux_fresh rest (entryKey a :: seen) b hb
      exact this (by simp [hkey])

/-- Membership characterisation: an entry value appears in the output of the
dedup loop iff some occurrence of it in the hit stream is the first hit (from
the start, given the initial `seen` set) carrying its checksum. -/
theorem loadEntriesAux_mem_iff (hits : List Entry) (seen : List Nat) (e : Entry) :
    e ∈ (loadEntriesAux hits seen).1 ↔
      ∃ pre post, hits = pre ++ e :: post ∧ entryKey e ∉ seen ∧
        entryKey e ∉ pre.map entryKey := by
  induction hits generalizing seen with
  | nil =>
    simp [loadEntriesAux]
  | cons a rest ih =>
    by_cases h : entryKey a ∈ seen
    · simp only [loadEntriesAux, if_pos h]
      rw [ih seen]
      constructor
      · rintro ⟨pre, post, hsplit, hseen, hpre⟩
        exact ⟨a :: pre, post, by simp [hsplit], hseen, by
          simp only [List.map_cons, List.mem_cons, not_or]
          refine ⟨?_, hpre⟩
          intro hk
          exact hseen (hk ▸ h)⟩
      · rintro ⟨pre, post, hsplit, hseen, hpre⟩
        cases pre with
        | nil =>
          simp at hsplit
          exact absurd (hsplit.1 ▸ h) hseen
        | cons p ps =>
          simp only [List.cons_append, List.cons.injEq] at hsplit
          exact ⟨ps, post, hsplit.2, hseen, by
            simp only [List.map_cons, List.mem_cons, not_or] at hpre
            exact hpre.2⟩
    · simp only [loadEntriesAux, if_neg h, List.mem_cons]
      rw [ih (entryKey a :: seen)]
      constructor
      · rintro (rfl | ⟨pre, post, hsplit, hseen, hpre⟩)
        · exact ⟨[], rest, rfl, h, by simp⟩
        · simp only [List.mem_cons, not_or] at hseen
          exact ⟨a :: pre, post, by simp [hsplit], hseen.2, by
            simp only [List.map_cons, List.mem_cons, not_or]
            exact ⟨hseen.1, hpre⟩⟩
      · rintro ⟨pre, post, hsplit, hseen, hpre⟩
        cases pre with
        | nil =>
          simp only [List.nil_append, List.cons.injEq] at hsplit
          exact Or.inl hsplit.1.symm
        | cons p ps =>
          simp only [List.cons_append, List.cons.injEq] at hsplit
          simp only [List.map_cons, List.mem_cons, not_or] at hpre
          refine Or.inr ⟨ps, post, hsplit.2, ?_, hpre.2⟩
          simp only [List.mem_cons, not_or]
          exact ⟨hsplit.1 ▸ hpre.1, hseen⟩

/-- Running the dedup loop over concatenated hit streams with the threaded
`seen` set equals appending the two runs. -/
theorem loadEntriesAux_append (xs ys : List Entry) (seen : List Nat) :
    loadEntriesAux (xs ++ ys) seen =
      ((loadEntriesAux xs seen).1 ++ (loadEntriesAux ys (loadEntriesAux xs seen).2).1,
       (loadEntriesAux ys (loadEntriesAux xs seen).2).2) := by
  induction xs generalizing seen with
  | nil => simp [loadEntriesAux]
  | cons a rest ih =>
    by_cases h : entryKey a ∈ seen
    · simp [loadEntriesAux, h, ih]
    · simp [loadEntriesAux, h, ih]

/-- The subbook's accumulated entries equal one dedup run over the
concatenation of the three passes. -/
theorem subbookEntries_eq (alphabet kana asis : List Entry) :
    subbookEntries alphabet kana asis =
      (loadEntriesAux (alphabet ++ kana ++ asis) []).1 := by
  simp [subbookEntries, loadEntries, loadEntriesAux_append]

/-- C1: over the three enumeration passes of one subbook, a decoded entry is
appended exactly when the CRC-32 of its heading bytes followed by its text
bytes has not been recorded before in the subbook's `blocksSeen` set (i.e. it
is the first hit carrying that checksum); consequently no two entries of the
resulting sequence have equal checksums, and no two have an equal
(heading, text) pair. -/
theorem loadEntries_dedup_unique (alphabet kana asis : List Entry) :
    (∀ e, e ∈ subbookEntries alphabet kana asis ↔
      ∃ pre post, alphabet ++ kana ++ asis = pre ++ e :: post ∧
        entryKey e ∉ pre.map entryKey) ∧
    (subbookEntries alphabet kana asis).Pairwise
      (fun a b => entryKey a ≠ entryKey b) ∧
    (subbookEntries alphabet kana asis).Pairwise (fun a b => a ≠ b) := by
  rw [subbookEntries_eq]
  refine ⟨?_, loadEntriesAux_pairwise _ _, ?_⟩
  · intro e
    rw [loadEntriesAux_mem_iff]
    simp
  · refine (loadEntriesAux_pairwise _ _).imp ?_
    intro a b h heq
    exact h (heq ▸ rfl)

/-- Witness for C1 at a concrete subbook: the kana pass repeats the alphabet
pass's single entry, and the result keeps it exactly once. -/
theorem loadEntries_dedup_unique_witness :
    subbookEntries [⟨[65], [66]⟩] [⟨[65], [66]⟩] [] = [⟨[65], [66]⟩] ∧
    (subbookEntries [⟨[65], [66]⟩] [⟨[65], [66]⟩] []).Pairwise
      (fun a b => entryKey a ≠ entryKey b) :=
  ⟨by decide, (loadEntries_dedup_unique [⟨[65], [66]⟩] [⟨[65], [66]⟩] []).2.1⟩

/-- C10: deduplication compares only the 32-bit checksums, never the strings:
two hits with distinct (heading, text) pairs but equal CRC-32 of
heading ++ text leave only the first in the entry sequence; the second is
silently dropped. -/
theorem dedup_checksum_collision_drops (a b : Entry) (hab : a ≠ b)
    (hkey : entryKey a = entryKey b) :
    (loadEntriesAux [a, b] []).1 = [a] := by
  simp [loadEntriesAux, hkey]

set_option maxRecDepth 8000 in
/-- Witness for C10: the byte strings of "plumless" and "buckeroo" differ but
share the CRC-32 value `0x4ddb0c25`; as headings (with empty texts) the
second entry is dropped. -/
theorem dedup_checksum_collision_drops_witness :
    (⟨[112, 108, 117, 109, 108, 101, 115, 115], []⟩ : Entry) ≠
      ⟨[98, 117, 99, 107, 101, 114, 111, 111], []⟩ ∧
    entryKey ⟨[112, 108, 117, 109, 108, 101, 115, 115], []⟩ =
      entryKey ⟨[98, 117, 99, 107, 101, 114, 111, 111], []⟩ ∧
    (loadEntriesAux [⟨[112, 108, 117, 109, 108, 101, 115, 115], []⟩,
      ⟨[98, 117, 99, 107, 101, 114, 111, 111], []⟩] []).1 =
      [⟨[112, 108, 117, 109, 108, 101, 115, 115], []⟩] :=
  ⟨by decide, by decide,
    dedup_checksum_collision_drops _ _ (by decide) (by decide)⟩

/-! ## Adaptive text reader (`loadContent`)

`loadContent` seeks to a position and decodes a heading or text block into
`bc.buffer`, doubling the buffer and redoing seek+decode whenever the bytes
used come within 8 bytes of the buffer size.  The access layer is modelled by
oracles: `seek` is the outcome of `eb_seek_text` at the fixed position
(`none` = success, `some e` = the error string), and `read` gives the outcome
of `eb_read_heading` / `eb_read_text` as a function of the buffer size. -/

/-- `blockType` from `zig.go`. -/
inductive BlockType where
  | heading
  | text
  deriving DecidableEq, Repr

/-- Outcome of one decode call into a buffer: an access-layer error code, or
the `dataUsed` count together with the bytes written. -/
inductive ReadResult where
  | fail (msg : String)
  | ok (used : Nat) (bytes : List Nat)
  deriving DecidableEq, Repr

/-- Error message the source wraps around a failing decode call. -/
def readFailMsg : BlockType → String → String
  | .heading, e => "eb_read_heading failed with code: " ++ e
  | .text, e => "eb_read_text failed with code: " ++ e

/-- `loadContent` from `zig.go`: the retry loop.  `dec` is the external
EUC-JP decoder applied to the raw bytes on success; `size` is
`len(bc.buffer)` (22 on entry for a fresh `bookContext`).  The Go loop is
unbounded; `fuel` bounds the iterations to make the embedding total. -/
def loadContent (bt : BlockType) (seek : Option String)
    (read : Nat → ReadResult) (dec : List Nat → String) :
    Nat → Nat → Except String String
  | 0, _ => .error "out of fuel"
  | fuel + 1, size =>
    match seek with
    | some e => .error ("eb_seek_text failed with code: " ++ e)
    | none =>
      match read size with
      | .fail e => .error (readFailMsg bt e)
      | .ok used bytes =>
        if used + 8 ≥ size then
          loadContent bt seek read dec fuel (size * 2)
        else
          .ok (dec bytes)

/-- C3: the adaptive text reader (a) propagates a seek failure immediately,
(b) propagates a decode failure immediately — neither is retried, (c) when
the bytes used come within 8 bytes of the buffer size it doubles the buffer
and redoes the whole read (seek plus decode) from scratch, (d) it returns a
decoded string exactly when the decode finishes with more than the 8-byte
margin left, and (e) any returned string comes from a decode that completed
with more than the 8-byte margin remaining. -/
theorem loadContent_retry_spec (bt : BlockType) (seek : Option String)
    (read : Nat → ReadResult) (dec : List Nat → String) :
    (∀ e fuel size, seek = some e →
      loadContent bt seek read dec (fuel + 1) size =
        .error ("eb_seek_text failed with code: " ++ e)) ∧
    (∀ e fuel size, seek = none → read size = .fail e →
      loadContent bt seek read dec (fuel + 1) size =
        .error (readFailMsg bt e)) ∧
    (∀ used bytes fuel size, seek = none → read size = .ok used bytes →
      used + 8 ≥ size →
      loadContent bt seek read dec (fuel + 1) size =
        loadContent bt seek read dec fuel (size * 2)) ∧
    (∀ used bytes fuel size, seek = none → read size = .ok used bytes →
      used + 8 < size →
      loadContent bt seek read dec (fuel + 1) size = .ok (dec bytes)) ∧
    (∀ fuel size s, loadContent bt seek read dec fuel size = .ok s →
      ∃ n used bytes, read n = .ok used bytes ∧ used + 8 < n ∧ s = dec bytes) := by
  refine ⟨?_, ?_, ?_, ?_, ?_⟩
  · intro e fuel size hs
    simp [loadContent, hs]
  · intro e fuel size hs hr
    simp [loadContent, hs, hr]
  · intro used bytes fuel size hs hr hm
    simp [loadContent, hs, hr, if_pos hm]
  · intro used bytes fuel size hs hr hm
    have hm2 : ¬ used + 8 ≥ size := by omega
    simp [loadContent, hs, hr, if_neg hm2]
  · intro fuel
    induction fuel with
    | zero => intro size s h; simp [loadContent] at h
    | succ n ih =>
      intro size s h
      rcases hs : seek with _ | e
      · rcases hr : read size with e | ⟨used, bytes⟩
        · simp [loadContent, hs, hr] at h
        · by_cases hm : used + 8 ≥ size
          · rw [show loadContent bt seek read dec (n + 1) size =
              loadContent bt seek read dec n (size * 2) by
                simp [loadContent, hs, hr, if_pos hm]] at h
            exact ih (size * 2) s h
          · rw [show loadContent bt seek read dec (n + 1) size =
              .ok (dec bytes) by simp [loadContent, hs, hr, if_neg hm]] at h
            exact ⟨size, used, bytes, hr, by omega, by
              simpa using h.symm⟩
      · simp [loadContent, hs] at h

/-- Read oracle for the C3 witness: at the initial 22-byte buffer the decode
uses 22 bytes (within the margin), at any other size it uses 10 bytes. -/
def readEx : Nat → ReadResult :=
  fun n => if n = 22 then .ok 22 [] else .ok 10 [1]

/-- Decoder for the C3 witness. -/
def decEx : List Nat → String :=
  fun _ => "ok"

/-- Witness for C3: with the `readEx` oracle, the 22-byte read triggers one
doubling retry and the 44-byte read succeeds with margin. -/
theorem loadContent_retry_spec_witness :
    loadContent .text none readEx decEx 2 22 = .ok "ok" := by
  have h := loadContent_retry_spec .text none readEx decEx
  rw [h.2.2.1 22 [] 1 22 rfl (by decide) (by omega)]
  rw [h.2.2.2.1 10 [1] 0 44 rfl (by decide) (by omega)]
  rfl

/-! ## Disc metadata (`loadCharCode`, `loadDiscCode`)

The enumerated codes come from the external access layer (libeb's
`EB_Character_Code` / `EB_Disc_Code`); their concrete values model that
library's headers, and only their distinctness matters here.  The query
outcome is an `Except`: `error` for a failing `eb_character_code` /
`eb_disc_type` call, `ok` with the code otherwise. -/

/-- libeb `EB_CHARCODE_ISO8859_1`. -/
def EB_CHARCODE_ISO8859_1 : Int := 1

/-- libeb `EB_CHARCODE_JISX0208`. -/
def EB_CHARCODE_JISX0208 : Int := 2

/-- libeb `EB_CHARCODE_JISX0208_GB2312`. -/
def EB_CHARCODE_JISX0208_GB2312 : Int := 3

/-- libeb `EB_DISC_EB`. -/
def EB_DISC_EB : Int := 0

/-- libeb `EB_DISC_EPWING`. -/
def EB_DISC_EPWING : Int := 1

/-- `loadCharCode` from `zig.go`: propagate a query failure, otherwise map
the recognized codes to their names and everything else to "invalid". -/
def loadCharCode (q : Except String Int) : Except String String :=
  match q with
  | .error e => .error ("eb_character_code failed with code: " ++ e)
  | .ok c =>
    if c = EB_CHARCODE_ISO8859_1 then .ok "iso8859-1"
    else if c = EB_CHARCODE_JISX0208 then .ok "jisx0208"
    else if c = EB_CHARCODE_JISX0208_GB2312 then .ok "jisx0208/gb2312"
    else .ok "invalid"

/-- `loadDiscCode` from `zig.go`. -/
def loadDiscCode (q : Except String Int) : Except String String :=
  match q with
  | .error e => .error ("eb_disc_type failed with code: " ++ e)
  | .ok c =>
    if c = EB_DISC_EB then .ok "eb"
    else if c = EB_DISC_EPWING then .ok "epwing"
    else .ok "invalid"

/-- C7: the character-encoding and disc-format readers map each recognized
code to its symbolic name and every unknown code to the "invalid" sentinel,
never returning an error for an unknown code; an error is returned exactly
when the underlying access-layer query itself fails. -/
theorem loadCharDiscCode_total :
    (∀ c, ∃ s, loadCharCode (.ok c) = .ok s) ∧
    loadCharCode (.ok EB_CHARCODE_ISO8859_1) = .ok "iso8859-1" ∧
    loadCharCode (.ok EB_CHARCODE_JISX0208) = .ok "jisx0208" ∧
    loadCharCode (.ok EB_CHARCODE_JISX0208_GB2312) = .ok "jisx0208/gb2312" ∧
    (∀ c, c ≠ EB_CHARCODE_ISO8859_1 → c ≠ EB_CHARCODE_JISX0208 →
      c ≠ EB_CHARCODE_JISX0208_GB2312 → loadCharCode (.ok c) = .ok "invalid") ∧
    (∀ e, loadCharCode (.error e) =
      .error ("eb_character_code failed with code: " ++ e)) ∧
    (∀ c, ∃ s, loadDiscCode (.ok c) = .ok s) ∧
    loadDiscCode (.ok EB_DISC_EB) = .ok "eb" ∧
    loadDiscCode (.ok EB_DISC_EPWING) = .ok "epwing" ∧
    (∀ c, c ≠ EB_DISC_EB → c ≠ EB_DISC_EPWING →
      loadDiscCode (.ok c) = .ok "invalid") ∧
    (∀ e, loadDiscCode (.error e) =
      .error ("eb_disc_type failed with code: " ++ e)) := by
  refine ⟨?_, rfl, rfl, rfl, ?_, fun e => rfl, ?_, rfl, rfl, ?_, fun e => rfl⟩
  · intro c
    by_cases h1 : c = EB_CHARCODE_ISO8859_1
    · exact ⟨"iso8859-1", by simp [loadCharCode, h1]⟩
    · by_cases h2 : c = EB_CHARCODE_JISX0208
      · exact ⟨"jisx0208", by
          simp [loadCharCode, h1, h2, EB_CHARCODE_ISO8859_1, EB_CHARCODE_JISX0208]⟩
      · by_cases h3 : c = EB_CHARCODE_JISX0208_GB2312
        · exact ⟨"jisx0208/gb2312", by
            simp [loadCharCode, h1, h2, h3, EB_CHARCODE_ISO8859_1,
              EB_CHARCODE_JISX0208, EB_CHARCODE_JISX0208_GB2312]⟩
        · exact ⟨"invalid", by simp [loadCharCode, h1, h2, h3]⟩
  · intro c h1 h2 h3
    simp [loadCharCode, h1, h2, h3]
  · intro c
    by_cases h1 : c = EB_DISC_EB
    · exact ⟨"eb", by simp [loadDiscCode, h1]⟩
    · by_cases h2 : c = EB_DISC_EPWING
      · exact ⟨"epwing", by
          simp [loadDiscCode, h1, h2, EB_DISC_EB, EB_DISC_EPWING]⟩
      · exact ⟨"invalid", by simp [loadDiscCode, h1, h2]⟩
  · intro c h1 h2
    simp [loadDiscCode, h1, h2]

/-- Witness for C7: the unknown code 7 maps to the sentinel, for both
identifiers, rather than erroring. -/
theorem loadCharDiscCode_total_witness :
    loadCharCode (.ok 7) = .ok "invalid" ∧ loadDiscCode (.ok 7) = .ok "invalid" :=
  ⟨loadCharDiscCode_total.2.2.2.2.1 7 (by decide) (by decide) (by decide),
   loadCharDiscCode_total.2.2.2.2.2.2.2.2.2.1 7 (by decide) (by decide)⟩

/-! ## The process-wide active query slot (`setActiveQuery` / `clearActiveQuery`)

`activeQuery` and `activeQueryLock` are package globals.  `setActiveQuery`
acquires the mutex (blocking while it is held) and then stores the context;
`clearActiveQuery` nils the context and releases the mutex.  We model the
pair as a labelled transition system on the (lock, slot) state; a contending
installer corresponds to the `install` action being disabled (not a silent
overwrite). -/

/-- The package-global state: whether `activeQueryLock` is held, and the
`queryContext` (by identifier) stored in `activeQuery`. -/
structure QueryState where
  locked : Bool
  active : Option Nat
  deriving DecidableEq, Repr

/-- The two operations on the slot. -/
inductive QueryAction where
  | install (q : Nat)
  | clear
  deriving DecidableEq, Repr

/-- Small-step semantics: `setActiveQuery` can only complete once the mutex
is free (Lock blocks otherwise) and leaves it held with the context stored;
`clearActiveQuery` requires the mutex held, nils the slot, then unlocks. -/
inductive QueryStep : QueryState → QueryAction → QueryState → Prop where
  | install (q : Nat) (a : Option Nat) :
      QueryStep ⟨false, a⟩ (.install q) ⟨true, some q⟩
  | clear (a : Option Nat) :
      QueryStep ⟨true, a⟩ .clear ⟨false, none⟩

/-- States reachable from the initial package state (mutex free, no context). -/
inductive QueryReachable : QueryState → Prop where
  | init : QueryReachable ⟨false, none⟩
  | step {s a t} : QueryReachable s → QueryStep s a t → QueryReachable t

/-- Helper invariant: whenever a context is stored, the mutex is held. -/
theorem queryReachable_locked_of_active (s : QueryState)
    (hs : QueryReachable s) : ∀ q, s.active = some q → s.locked = true := by
  induction hs with
  | init => intro q h; simp at h
  | step _ hstep _ =>
    intro q h
    cases hstep with
    | install => rfl
    | clear => simp at h

/-- C9: at most one Extraction Context is active process-wide: in any
reachable state holding a context, the mutex is held, so a second
`setActiveQuery` cannot complete (its `Lock` blocks) and no step replaces
the stored context with a different one — the only enabled action is
`clearActiveQuery`, which empties the slot; once the slot is empty and the
mutex free, an install can complete. -/
theorem activeQuery_mutual_exclusion :
    (∀ s, QueryReachable s → ∀ q, s.active = some q →
      (∀ q2 t, ¬ QueryStep s (.install q2) t) ∧
      (∀ t, QueryStep s .clear t → t.active = none)) ∧
    (∀ q, QueryStep ⟨false, none⟩ (.install q) ⟨true, some q⟩) := by
  constructor
  · intro s hs q hq
    have hlock : s.locked = true := queryReachable_locked_of_active s hs q hq
    constructor
    · intro q2 t hstep
      cases hstep with
      | install =>
        simp at hlock
    · intro t hstep
      cases hstep with
      | clear => rfl
  · intro q
    exact QueryStep.install q none

/-- Witness for C9: in the reachable state where context 0 is installed, the
install of context 1 is disabled. -/
theorem activeQuery_mutual_exclusion_witness :
    ¬ QueryStep ⟨true, some 0⟩ (.install 1) ⟨true, some 1⟩ :=
  (activeQuery_mutual_exclusion.1 ⟨true, some 0⟩
    (QueryReachable.step QueryReachable.init (QueryStep.install 0 none))
    0 rfl).1 1 ⟨true, some 1⟩

/-! ## Glyph rasterizer (`loadGaiji`)

`loadGaiji` asks the access layer for the packed 1-bit-per-pixel bitmap
(`size*size/8` bytes) and builds an `image.NewRGBA` of `size`×`size`.
`image.NewRGBA` zero-initialises every pixel, i.e. to RGBA `(0,0,0,0)`
(fully transparent); the loop then calls `glyph.Set(x, y, black)` exactly
for the one-bits. -/

/-- One RGBA pixel. -/
structure Pixel where
  r : Nat
  g : Nat
  b : Nat
  a : Nat
  deriving DecidableEq, Repr

/-- The colour written for a set bit: `color.RGBA{0x00, 0x00, 0x00, 0xff}`. -/
def blackPixel : Pixel := ⟨0, 0, 0, 0xff⟩

/-- The value `image.NewRGBA` leaves in untouched pixels: all channels zero,
fully transparent. -/
def zeroPixel : Pixel := ⟨0, 0, 0, 0⟩

/-- Opaque white, for comparison with the spec wording. -/
def whitePixel : Pixel := ⟨0xff, 0xff, 0xff, 0xff⟩

/-- The pixel `loadGaiji` produces at `(x, y)`: byte offset
`y*size/8 + x/8`, bit offset `7 - x%8`, a one-bit paints `blackPixel`, a
zero-bit leaves the `image.NewRGBA` initial value.  Indexing past the bitmap
is modelled as a zero byte (the loop never does so for `x, y < size` and a
`size*size/8`-byte bitmap with `8 ∣ size`). -/
def loadGaijiPixel (bitmap : List Nat) (size x y : Nat) : Pixel :=
  let byteOffset := y * size / 8 + x / 8
  let bitOffset := 7 - x % 8
  if Nat.land (bitmap.getD byteOffset 0) (Nat.shiftLeft 1 bitOffset) ≠ 0 then
    blackPixel
  else
    zeroPixel

/-- A synthetic packed bitmap for a `size`×`size` grid with exactly the bit
of pixel `(sx, sy)` set. -/
def singleBitBitmap (size sx sy : Nat) : List Nat :=
  (List.range (size * size / 8)).map
    (fun i => if i = sy * size / 8 + sx / 8 then Nat.shiftLeft 1 (7 - sx % 8) else 0)

/-- Counterexample to C5 as stated: in the 16×16 single-bit bitmap with the
bit of `(0, 0)` set, the pixel at `(1, 0)` (a zero bit) is the transparent
zero value of `image.NewRGBA`, not white. -/
theorem loadGaiji_zero_bit_not_white :
    loadGaijiPixel (singleBitBitmap 16 0 0) 16 1 0 = zeroPixel ∧
    zeroPixel ≠ whitePixel := by
  constructor
  · decide
  · decide

/-- C5 (amended): the bit controlling pixel `(x, y)` lies at byte offset
`y*size/8 + x/8` with bit offset `7 - x%8`; a one bit renders an opaque
black pixel while a zero bit leaves the pixel at the zero-initialised, fully
transparent RGBA value (not white); in particular, for a synthetic 16×16
bitmap with exactly the bit of `(sx, sy)` set, the rasterized image is that
transparent value everywhere except a single black pixel at `(sx, sy)`. -/
theorem land_shift_eq_zero_iff : ∀ a < 8, ∀ b < 8,
    (Nat.land (Nat.shiftLeft 1 a) (Nat.shiftLeft 1 b) ≠ 0 ↔ a = b) := by
  decide

theorem loadGaiji_single_bit_raster :
    ∀ sx < 16, ∀ sy < 16, ∀ x < 16, ∀ y < 16,
      loadGaijiPixel (singleBitBitmap 16 sx sy) 16 x y =
        (if x = sx ∧ y = sy then blackPixel else zeroPixel) := by
  intro sx hsx sy hsy x hx y hy
  have hoff : y * 16 / 8 + x / 8 < 16 * 16 / 8 := by omega
  have hbyte : (singleBitBitmap 16 sx sy).getD (y * 16 / 8 + x / 8) 0 =
      (if y * 16 / 8 + x / 8 = sy * 16 / 8 + sx / 8
       then Nat.shiftLeft 1 (7 - sx % 8) else 0) := by
    unfold singleBitBitmap
    rw [List.getD_eq_getElem _ _ (by simpa using hoff)]
    simp
  simp only [loadGaijiPixel]
  rw [hbyte]
  by_cases heq : y * 16 / 8 + x / 8 = sy * 16 / 8 + sx / 8
  · rw [if_pos heq]
    by_cases hbit : x % 8 = sx % 8
    · have hxs : x = sx ∧ y = sy := by omega
      have hne : Nat.land (Nat.shiftLeft 1 (7 - sx % 8))
          (Nat.shiftLeft 1 (7 - x % 8)) ≠ 0 := by
        rw [land_shift_eq_zero_iff _ (by omega) _ (by omega)]
        omega
      rw [if_pos hne, if_pos hxs]
    · have hz : Nat.land (Nat.shiftLeft 1 (7 - sx % 8))
          (Nat.shiftLeft 1 (7 - x % 8)) = 0 := by
        by_contra hc
        exact absurd ((land_shift_eq_zero_iff _ (by omega) _ (by omega)).mp hc)
          (by omega)
      have hns : ¬ (x = sx ∧ y = sy) := by
        rintro ⟨rfl, rfl⟩
        omega
      rw [if_neg (fun hcon => hcon hz), if_neg hns]
  · rw [if_neg heq]
    have hns : ¬ (x = sx ∧ y = sy) := by
      rintro ⟨rfl, rfl⟩
      omega
    rw [if_neg (fun hcon => hcon (Nat.zero_and _)), if_neg hns]

/-- Witness for C5: with the bit of `(3, 5)` set, pixel `(3, 5)` is black
and pixel `(4, 5)` is the transparent zero value. -/
theorem loadGaiji_single_bit_raster_witness :
    loadGaijiPixel (singleBitBitmap 16 3 5) 16 3 5 = blackPixel ∧
    loadGaijiPixel (singleBitBitmap 16 3 5) 16 4 5 = zeroPixel := by
  constructor
  · exact (loadGaiji_single_bit_raster 3 (by decide) 5 (by decide) 3
      (by decide) 5 (by decide)).trans (by decide)
  · exact (loadGaiji_single_bit_raster 3 (by decide) 5 (by decide) 4
      (by decide) 5 (by decide)).trans (by decide)

/-! ## Context lifecycle in `loadSubbook`

The repository carries two versions of `loadSubbook`.  In the first
(`loadGaiji`-bearing) version the fresh `queryContext` is installed via
`setActiveQuery` *before* `loadTitle`/`loadCopyright`; in the second version
title and copyright are read first and the context is installed just before
the three enumeration passes.  We embed each as the sequence of access-layer
events it performs, driven by an oracle saying which calls succeed; an early
`return` truncates the sequence.  (After `clearActiveQuery` the first
version goes on to 48px font selection and rasterization; those events are
beyond the context lifecycle modelled here.) -/

/-- Which access-layer calls succeed during one `loadSubbook` run.  The
`search*Ok` fields are the `eb_search_all_*` outcomes (failure skips the
pass); the `*EntriesOk` fields are the `loadEntries` outcomes (failure
aborts the subbook). -/
structure SubbookOracle where
  setSubbookOk : Bool
  titleOk : Bool
  copyrightOk : Bool
  alphabetOk : Bool
  alphabetEntriesOk : Bool
  kanaOk : Bool
  kanaEntriesOk : Bool
  asisOk : Bool
  asisEntriesOk : Bool
  deriving DecidableEq, Repr

/-- The three enumeration passes. -/
inductive PassKind where
  | alphabet
  | kana
  | asis
  deriving DecidableEq, Repr

/-- Access-layer events of one `loadSubbook` run. -/
inductive SubbookEvent where
  | setSubbook
  | installContext
  | readTitle
  | readCopyright
  | search (k : PassKind)
  | walkEntries (k : PassKind)
  | clearContext
  deriving DecidableEq, Repr

/-- Events of one enumeration pass: the search request, then — only if the
access layer accepted it — the entry walk. -/
def passEvents (searchOk : Bool) (k : PassKind) : List SubbookEvent :=
  if searchOk then [SubbookEvent.search k, SubbookEvent.walkEntries k]
  else [SubbookEvent.search k]

/-- A pass aborts the whole subbook when its search was accepted but
`loadEntries` failed. -/
def passAborts (searchOk entriesOk : Bool) : Bool :=
  searchOk && !entriesOk

/-- The three passes followed by `clearActiveQuery`, common to both
versions (an entry-walk failure returns early, skipping the clear). -/
def passesEvents (o : SubbookOracle) : List SubbookEvent :=
  passEvents o.alphabetOk PassKind.alphabet ++
  (if passAborts o.alphabetOk o.alphabetEntriesOk then [] else
    passEvents o.kanaOk PassKind.kana ++
    (if passAborts o.kanaOk o.kanaEntriesOk then [] else
      passEvents o.asisOk PassKind.asis ++
      (if passAborts o.asisOk o.asisEntriesOk then [] else
        [SubbookEvent.clearContext])))

/-- First version of `loadSubbook`: set subbook, install the fresh context,
then read title and copyright, then the passes. -/
def loadSubbookV1 (o : SubbookOracle) : List SubbookEvent :=
  [SubbookEvent.setSubbook] ++
  (if o.setSubbookOk = false then [] else
    [SubbookEvent.installContext, SubbookEvent.readTitle] ++
    (if o.titleOk = false then [] else
      [SubbookEvent.readCopyright] ++
      (if o.copyrightOk = false then [] else
        passesEvents o)))

/-- Second version of `loadSubbook`: set subbook, read title and copyright,
and only then install the context before the passes. -/
def loadSubbookV2 (o : SubbookOracle) : List SubbookEvent :=
  [SubbookEvent.setSubbook] ++
  (if o.setSubbookOk = false then [] else
    [SubbookEvent.readTitle] ++
    (if o.titleOk = false then [] else
      [SubbookEvent.readCopyright] ++
      (if o.copyrightOk = false then [] else
        [SubbookEvent.installContext] ++ passesEvents o)))

/-- Whether an Extraction Context is active after a run of events, given the
state at the start. -/
def ctxActive : List SubbookEvent → Bool → Bool
  | [], b => b
  | e :: rest, b =>
    ctxActive rest
      (match e with
       | SubbookEvent.installContext => true
       | SubbookEvent.clearContext => false
       | _ => b)

/-- The events whose decode can invoke the font-reference interceptor
(title, copyright and entry-walk reads all decode through the access
layer). -/
def decodeEvent : SubbookEvent → Bool
  | SubbookEvent.readTitle => true
  | SubbookEvent.readCopyright => true
  | SubbookEvent.walkEntries _ => true
  | _ => false

/-- Every decode event of the trace happens while a context is active. -/
def decodesCovered (t : List SubbookEvent) : Bool :=
  (List.range t.length).all fun i =>
    !(decodeEvent (t.getD i SubbookEvent.setSubbook)) || ctxActive (t.take i) false

/-- Every entry-walk event of the trace happens while a context is active. -/
def walksCovered (t : List SubbookEvent) : Bool :=
  (List.range t.length).all fun i =>
    (match t.getD i SubbookEvent.setSubbook with
     | SubbookEvent.walkEntries _ => ctxActive (t.take i) false
     | _ => true)

/-- Title and copyright reads happen with no context active. -/
def titleCopyrightUncovered (t : List SubbookEvent) : Bool :=
  (List.range t.length).all fun i =>
    (match t.getD i SubbookEvent.setSubbook with
     | SubbookEvent.readTitle => !(ctxActive (t.take i) false)
     | SubbookEvent.readCopyright => !(ctxActive (t.take i) false)
     | _ => true)

/-- Any `clearContext` comes after every search and entry-walk event: the
context is cleared only once the subbook's entry walk has fully completed. -/
def clearAfterWalks (t : List SubbookEvent) : Bool :=
  (List.range t.length).all fun i =>
    (List.range t.length).all fun j =>
      (match t.getD i SubbookEvent.setSubbook, t.getD j SubbookEvent.setSubbook with
       | SubbookEvent.clearContext, SubbookEvent.search _ => decide (j < i)
       | SubbookEvent.clearContext, SubbookEvent.walkEntries _ => decide (j < i)
       | _, _ => true)

/-- The oracle under which every access-layer call succeeds. -/
def allOkOracle : SubbookOracle :=
  ⟨true, true, true, true, true, true, true, true, true⟩

/-- Counterexample to C4 as stated: in the second version of `loadSubbook`,
with every call succeeding, the title is read at position 1 of the trace
while no Extraction Context is active (the install only happens later), so
it is not the case that a context is installed before the title and
copyright reads of every subbook extraction. -/
theorem loadSubbookV2_title_read_without_context :
    decodesCovered (loadSubbookV2 allOkOracle) = false ∧
    (loadSubbookV2 allOkOracle).getD 1 SubbookEvent.setSubbook =
      SubbookEvent.readTitle ∧
    ctxActive ((loadSubbookV2 allOkOracle).take 1) false = false := by
  decide

/-- C4 (amended): in the first version of `loadSubbook` the fresh context is
installed before the title and copyright reads, so every decode of the
subbook — title, copyright and entry walks — runs with a context active; in
the second version the entry walks still run with a context active, but the
title and copyright are read *before* the install, with no context active;
in both versions the context is cleared only after all enumeration passes
of the subbook have completed. -/
theorem loadSubbook_context_lifecycle :
    ∀ a b c d e f g h i : Bool,
      decodesCovered (loadSubbookV1 ⟨a, b, c, d, e, f, g, h, i⟩) = true ∧
      walksCovered (loadSubbookV2 ⟨a, b, c, d, e, f, g, h, i⟩) = true ∧
      titleCopyrightUncovered (loadSubbookV2 ⟨a, b, c, d, e, f, g, h, i⟩) = true ∧
      clearAfterWalks (loadSubbookV1 ⟨a, b, c, d, e, f, g, h, i⟩) = true ∧
      clearAfterWalks (loadSubbookV2 ⟨a, b, c, d, e, f, g, h, i⟩) = true := by
  decide

/-! ## Resource release in `Load`

`Load` calls `initialize` and registers `defer bc.shutdown()` only *after*
a successful `initialize`; `initialize` itself acquires the library, the
book handle and the hook set before installing the hooks, and returns an
error without releasing anything if hook installation fails. -/

/-- Which access-layer resources are currently held. -/
structure Resources where
  lib : Bool
  book : Bool
  hookset : Bool
  deriving DecidableEq, Repr

/-- Which calls of a `Load` run succeed. -/
structure LoadOracle where
  libOk : Bool
  hooksOk : Bool
  bindOk : Bool
  charOk : Bool
  discOk : Bool
  subbooksOk : Bool
  deriving DecidableEq, Repr

/-- No resources held. -/
def noResources : Resources := ⟨false, false, false⟩

/-- `initialize` from `zig.go`: acquire the library, then the book handle
(calloc + `eb_initialize_book`), then the hook set, then install the hooks;
a hook-installation failure returns with all three still held. -/
def initLibrary (o : LoadOracle) : Except String Unit × Resources :=
  if o.libOk = false then
    (.error "eb_initialize_library failed", noResources)
  else
    if o.hooksOk = false then
      (.error "eb_set_hook failed", ⟨true, true, true⟩)
    else
      (.ok (), ⟨true, true, true⟩)

/-- `shutdown` from `zig.go`: finalize and free the hook set, the book and
the library. -/
def shutdown (r : Resources) : Resources :=
  match r with
  | _ => noResources

/-- `loadInternal` from `zig.go`: bind, read metadata, load subbooks; the
first failure propagates.  It touches no resources itself. -/
def loadInternal (o : LoadOracle) : Except String Unit :=
  if o.bindOk = false then .error "eb_bind failed"
  else if o.charOk = false then .error "eb_character_code failed"
  else if o.discOk = false then .error "eb_disc_type failed"
  else if o.subbooksOk = false then .error "loadSubbooks failed"
  else .ok ()

/-- `Load` from `zig.go`: an `initialize` error returns immediately — the
deferred `shutdown` is registered only after `initialize` succeeded, and
then covers every exit of `loadInternal`. -/
def Load (o : LoadOracle) : Except String Unit × Resources :=
  match initLibrary o with
  | (.error e, r) => (.error e, r)
  | (.ok _, r) => (loadInternal o, shutdown r)

/-- The oracle under which only hook installation fails. -/
def hookFailOracle : LoadOracle := ⟨true, false, true, true, true, true⟩

/-- Counterexample to C8 as stated: when hook installation fails during
`initialize`, `Load` returns with the library, book handle and hook set all
still held — the acquired resources are not released on this error path. -/
theorem load_leaks_on_hook_failure :
    (Load hookFailOracle).2 = ⟨true, true, true⟩ ∧
    (Load hookFailOracle).2 ≠ noResources := by
  decide

/-- C8 (amended): on every exit path of `Load` *other than a failure inside
`initialize` after acquisition* the resources are released: whenever
`initialize` succeeds — whatever happens during binding, metadata reads or
subbook extraction — the deferred `shutdown` releases everything before
`Load` returns; and when the very first acquisition fails nothing was held.
Only an `initialize` failure after acquisition (hook installation) leaks. -/
theorem load_releases_after_successful_init :
    ∀ p q r s t u : Bool,
      (p = true → q = true → (Load ⟨p, q, r, s, t, u⟩).2 = noResources) ∧
      (p = false → (Load ⟨p, q, r, s, t, u⟩).2 = noResources) := by
  decide

/-- Witness for C8: a run whose bind fails after a successful `initialize`
still returns with everything released. -/
theorem load_releases_after_successful_init_witness :
    (Load ⟨true, true, false, true, true, true⟩).2 = noResources :=
  (load_releases_after_successful_init true true false true true true).1 rfl rfl

/-! ## Font-reference interceptor with stub-gaiji mode

`zero-epwing/main.go` calls `zig.Load(path, flags)` with `zig.LoadFlags`
options and consumes `zig.Gaiji` records with per-resolution glyph images;
that flag-bearing version of the library is not under the tree's `zig.go`
(which carries two earlier versions whose `hookCallback` hard-codes the
placeholder write).  The stub-mode conditional of the interceptor is
therefore modelled from the spec. -/

/-- `fontType` from `zig.go`: the narrow/wide font variants. -/
inductive FontType where
  | narrow
  | wide
  deriving DecidableEq, Repr

/-- The recorded codepoint sets of a `queryContext` (`gaijiNarrow` /
`gaijiWide`, maps `int → bool` modelled as lists of recorded keys). -/
structure GaijiContext where
  gaijiNarrow : List Nat
  gaijiWide : List Nat
  deriving DecidableEq, Repr

/-- The textual placeholder for a font reference, `"{{n_%d}}"` /
`"{{w_%d}}"` in the source. -/
def placeholder : FontType → Nat → String
  | FontType.narrow, cp => "\x7b\x7bn_" ++ toString cp ++ "\x7d\x7d"
  | FontType.wide, cp => "\x7b\x7bw_" ++ toString cp ++ "\x7d\x7d"

/-- Modelled from the spec: the font-reference interceptor of the current
library version (with its "stub gaiji" option; only its caller
`zero-epwing/main.go` is in the tree).  It records the referenced codepoint
into the active context's narrow or wide set and, exactly when stub mode is
enabled, writes the placeholder into the decoded output stream; with stub
mode disabled it emits nothing. -/
def hookCallback (stub : Bool) (f : FontType) (cp : Nat)
    (ctx : GaijiContext) (out : String) : GaijiContext × String :=
  let ctx2 :=
    match f with
    | FontType.narrow => { ctx with gaijiNarrow := cp :: ctx.gaijiNarrow }
    | FontType.wide => { ctx with gaijiWide := cp :: ctx.gaijiWide }
  (ctx2, if stub then out ++ placeholder f cp else out)

/-- An item of a heading/body block: literal text, or an inline font
reference that triggers the interceptor mid-decode. -/
inductive BlockItem where
  | literal (s : String)
  | fontRef (f : FontType) (cp : Nat)
  deriving DecidableEq, Repr

/-- Modelled from the spec: decoding a block appends literal text to the
output stream and invokes the interceptor at each inline font reference. -/
def decodeBlock (stub : Bool) :
    List BlockItem → GaijiContext → String → GaijiContext × String
  | [], ctx, out => (ctx, out)
  | BlockItem.literal s :: rest, ctx, out => decodeBlock stub rest ctx (out ++ s)
  | BlockItem.fontRef f cp :: rest, ctx, out =>
    let (c2, o2) := hookCallback stub f cp ctx out
    decodeBlock stub rest c2 o2

/-- C2: the interceptor records the referenced codepoint in the matching set
of the active context (leaving the other set untouched); with stub mode
enabled it appends exactly the placeholder to the output stream, and with
stub mode disabled it emits nothing — and decoding a body block holding one
wide reference to 42 yields `{{w_42}}` in the text when stubbed, no
placeholder otherwise, with 42 recorded in the wide set either way. -/
theorem hookCallback_stub_gaiji (stub : Bool) (f : FontType) (cp : Nat)
    (ctx : GaijiContext) (out : String) :
    (f = FontType.narrow →
      cp ∈ (hookCallback stub f cp ctx out).1.gaijiNarrow ∧
      (hookCallback stub f cp ctx out).1.gaijiWide = ctx.gaijiWide) ∧
    (f = FontType.wide →
      cp ∈ (hookCallback stub f cp ctx out).1.gaijiWide ∧
      (hookCallback stub f cp ctx out).1.gaijiNarrow = ctx.gaijiNarrow) ∧
    (stub = true →
      (hookCallback stub f cp ctx out).2 = out ++ placeholder f cp) ∧
    (stub = false → (hookCallback stub f cp ctx out).2 = out) ∧
    (decodeBlock true [BlockItem.fontRef FontType.wide 42] ⟨[], []⟩ "" =
      (⟨[], [42]⟩, "\x7b\x7bw_42\x7d\x7d")) ∧
    (decodeBlock false [BlockItem.fontRef FontType.wide 42] ⟨[], []⟩ "" =
      (⟨[], [42]⟩, "")) := by
  refine ⟨?_, ?_, ?_, ?_, by decide, by decide⟩
  · rintro rfl
    simp [hookCallback]
  · rintro rfl
    simp [hookCallback]
  · rintro rfl
    cases f <;> simp [hookCallback]
  · rintro rfl
    cases f <;> simp [hookCallback]

/-- Witness for C2: with stub mode off, a narrow reference to 7 is recorded
but the output stream is unchanged. -/
theorem hookCallback_stub_gaiji_witness :
    7 ∈ (hookCallback false FontType.narrow 7 ⟨[], []⟩ "x").1.gaijiNarrow ∧
    (hookCallback false FontType.narrow 7 ⟨[], []⟩ "x").2 = "x" :=
  ⟨((hookCallback_stub_gaiji false FontType.narrow 7 ⟨[], []⟩ "x").1 rfl).1,
   (hookCallback_stub_gaiji false FontType.narrow 7 ⟨[], []⟩ "x").2.2.2.1 rfl⟩

/-! ## Per-resolution glyph rasterization

`zero-epwing/main.go` reads `zig.Gaiji` records carrying `Glyph16`,
`Glyph24`, `Glyph30` and `Glyph48` images for both the narrow and the wide
maps of each subbook; the `loadSubbook` that fills them (re-selecting the
font per resolution) is the flag-bearing library version not under the
tree's `zig.go`, so the phase is modelled from the spec, reusing the
bit-addressed rasterizer embedded above from `loadGaiji`. -/

/-- Modelled from the spec: the fixed set of glyph resolutions
(`LoadFlagsGaiji16/24/30/48` in `zero-epwing/main.go`). -/
def glyphResolutions : List Nat := [16, 24, 30, 48]

/-- Access-layer events of the glyph phase. -/
inductive FontEvent where
  | setFont (r : Nat)
  | raster (f : FontType) (cp : Nat) (r : Nat)
  deriving DecidableEq, Repr

/-- Modelled from the spec: for one resolution, re-select that font
resolution on the access layer, then rasterize every recorded narrow and
wide codepoint. -/
def rasterizeResolution (r : Nat) (narrow wide : List Nat) : List FontEvent :=
  FontEvent.setFont r ::
    (narrow.map (fun cp => FontEvent.raster FontType.narrow cp r) ++
     wide.map (fun cp => FontEvent.raster FontType.wide cp r))

/-- Modelled from the spec: the per-subbook glyph phase, repeated once per
requested resolution. -/
def rasterizeSubbook (rs : List Nat) (narrow wide : List Nat) : List FontEvent :=
  (rs.map (fun r => rasterizeResolution r narrow wide)).flatten

/-- Modelled from the spec: the merged per-codepoint Glyph record — for each
requested resolution, the image the rasterizer renders from the access
layer's packed bitmap for that variant, codepoint and resolution. -/
def glyphRecord (bitmaps : FontType → Nat → Nat → List Nat) (rs : List Nat)
    (f : FontType) (cp : Nat) : List (Nat × List (List Pixel)) :=
  rs.map fun r =>
    (r, (List.range r).map fun y => (List.range r).map fun x =>
      loadGaijiPixel (bitmaps f cp r) r x y)

/-- C6: for each requested resolution the glyph phase contributes one
contiguous segment of the event sequence that starts by re-selecting that
font resolution and then rasterizes every recorded codepoint for both the
narrow and the wide variant; and the per-codepoint Glyph record merges one
rendered image per requested resolution. -/
theorem rasterizeSubbook_per_resolution (rs narrow wide : List Nat)
    (bitmaps : FontType → Nat → Nat → List Nat) :
    (∀ r ∈ rs, ∃ pre post,
      rasterizeSubbook rs narrow wide =
        pre ++ rasterizeResolution r narrow wide ++ post) ∧
    (∀ r ∈ rs, ∀ cp ∈ narrow,
      FontEvent.raster FontType.narrow cp r ∈ rasterizeSubbook rs narrow wide) ∧
    (∀ r ∈ rs, ∀ cp ∈ wide,
      FontEvent.raster FontType.wide cp r ∈ rasterizeSubbook rs narrow wide) ∧
    (∀ f cp, ∀ r ∈ rs,
      (r, (List.range r).map fun y => (List.range r).map fun x =>
        loadGaijiPixel (bitmaps f cp r) r x y) ∈ glyphRecord bitmaps rs f cp) := by
  have hseg : ∀ r ∈ rs, ∃ pre post,
      rasterizeSubbook rs narrow wide =
        pre ++ rasterizeResolution r narrow wide ++ post := by
    intro r hr
    obtain ⟨l1, l2, rfl⟩ := List.append_of_mem hr
    refine ⟨(l1.map (fun r => rasterizeResolution r narrow wide)).flatten,
      (l2.map (fun r => rasterizeResolution r narrow wide)).flatten, ?_⟩
    simp [rasterizeSubbook]
  refine ⟨hseg, ?_, ?_, ?_⟩
  · intro r hr cp hcp
    obtain ⟨pre, post, hsplit⟩ := hseg r hr
    rw [hsplit]
    refine List.mem_append_left _ (List.mem_append_right _ ?_)
    simp [rasterizeResolution]
    exact hcp
  · intro r hr cp hcp
    obtain ⟨pre, post, hsplit⟩ := hseg r hr
    rw [hsplit]
    refine List.mem_append_left _ (List.mem_append_right _ ?_)
    simp [rasterizeResolution]
    exact hcp
  · intro f cp r hr
    exact List.mem_map_of_mem _ hr

/-- The all-empty bitmap oracle, for the C6 witness. -/
def zeroBitmaps : FontType → Nat → Nat → List Nat :=
  fun _ _ _ => []

/-- Witness for C6: with the fixed resolution set, narrow codepoint 5 and
wide codepoint 9 are each rasterized at resolutions 24 and 48. -/
theorem rasterizeSubbook_per_resolution_witness :
    FontEvent.raster FontType.narrow 5 24 ∈ rasterizeSubbook glyphResolutions [5] [9] ∧
    FontEvent.raster FontType.wide 9 48 ∈ rasterizeSubbook glyphResolutions [5] [9] :=
  ⟨(rasterizeSubbook_per_resolution glyphResolutions [5] [9] zeroBitmaps).2.1
      24 (by decide) 5 (by decide),
   (rasterizeSubbook_per_resolution glyphResolutions [5] [9] zeroBitmaps).2.2.1
      48 (by decide) 9 (by decide)⟩

end Zig
